import Mathlib

/-!
# hwang: random-access video index, interval slicing and decoder factory

A shallow embedding of `hwang/video_index.h` and `hwang/video_decoder_factory.cpp`.

* `uint64_t`, `uint32_t`, `size_t` and `uint8_t` values are natural numbers; the bound of the
  machine type is stated explicitly where it matters (`VideoIndex.representable`).
* `std::vector<T>` is `List T`.
* The preprocessor symbols `HAVE_NVIDIA_VIDEO_HARDWARE` and `HAVE_INTEL_VIDEO_HARDWARE` are the
  two booleans of a `BuildConfig`.
* The bodies of `slice_into_video_intervals`, `VideoIndex::serialize` and
  `VideoIndex::deserialize` are only declared in `video_index.h`; they are modelled from the
  specification and marked as such.
-/

set_option autoImplicit false

namespace hwang

/-! ## `video_index.h`: the `VideoIndex` class -/

/-- The private fields of `class VideoIndex` (`video_index.h`, lines 55-63). -/
structure VideoIndex where
  num_frames_ : Nat
  num_non_ref_frames_ : Nat
  metadata_bytes_ : List Nat
  sample_offsets_ : List Nat
  sample_sizes_ : List Nat
  keyframe_indices_ : List Nat
  deriving DecidableEq, Repr

/-- The public five-argument constructor `VideoIndex::VideoIndex(num_frames, metadata,
sample_offsets, sample_sizes, keyframe_indices)` (lines 25-32): every argument is copied into its
field by the member-initialiser list, the body is empty, and `num_non_ref_frames_` keeps its
default member initialiser `= 0` (line 57). -/
def VideoIndex.ctor (num_frames : Nat) (metadata sample_offsets sample_sizes
    keyframe_indices : List Nat) : VideoIndex :=
  { num_frames_ := num_frames
    num_non_ref_frames_ := 0
    metadata_bytes_ := metadata
    sample_offsets_ := sample_offsets
    sample_sizes_ := sample_sizes
    keyframe_indices_ := keyframe_indices }

/-- The accessor `metadata_bytes()` (line 38). -/
def VideoIndex.metadata_bytes (self : VideoIndex) : List Nat := self.metadata_bytes_

/-- The accessor `sample_sizes()` (lines 40-42). -/
def VideoIndex.sample_sizes (self : VideoIndex) : List Nat := self.sample_sizes_

/-- The accessor `sample_offsets()` (lines 44-46). -/
def VideoIndex.sample_offsets (self : VideoIndex) : List Nat := self.sample_offsets_

/-- The accessor `keyframe_indices()` (lines 48-50). -/
def VideoIndex.keyframe_indices (self : VideoIndex) : List Nat := self.keyframe_indices_

/-- The accessor `frames()` (line 52). -/
def VideoIndex.frames (self : VideoIndex) : Nat := self.num_frames_

/-- The accessor `num_non_ref_frames()` (line 53). -/
def VideoIndex.num_non_ref_frames (self : VideoIndex) : Nat := self.num_non_ref_frames_

/-- The data-model invariant on the frame count: `frames()` is the length of `sample_offsets()`
and of `sample_sizes()`. -/
def VideoIndex.frame_count_invariant (self : VideoIndex) : Prop :=
  self.frames = self.sample_offsets.length ∧ self.frames = self.sample_sizes.length

instance (self : VideoIndex) : Decidable self.frame_count_invariant := by
  unfold VideoIndex.frame_count_invariant; exact inferInstance

/-- The `VideoIntervals` struct (lines 65-68): inclusive `(start, end)` sample-index intervals and,
index-aligned with them, the requested frames of each interval. -/
structure VideoIntervals where
  sample_index_intervals : List (Nat × Nat)
  valid_frames : List (List Nat)
  deriving DecidableEq, Repr

/-! ## `video_decoder_factory.cpp` -/

/-- The enumeration `VideoDecoderType`. Its declaration is in a header outside the embedded
sources; the three enumerators are the ones `video_decoder_factory.cpp` names. `OTHER raw` stands
for any value of the enumeration's underlying type that is none of the three: it is what reaches
the `default` label of the `switch` in `make_from_config`. -/
inductive VideoDecoderType where
  | NVIDIA
  | INTEL
  | SOFTWARE
  | OTHER (raw : Nat)
  deriving DecidableEq, Repr

/-- The build configuration: which of the two feature macros are defined. -/
structure BuildConfig where
  HAVE_NVIDIA_VIDEO_HARDWARE : Bool
  HAVE_INTEL_VIDEO_HARDWARE : Bool
  deriving DecidableEq, Repr

/-- The function `std::vector::push_back`. -/
def push_back {α : Type} (v : List α) (x : α) : List α := v ++ [x]

/-- The function `VideoDecoderFactory::get_supported_decoder_types` (lines 31-42): an empty vector,
then one `push_back` per compiled-in variant, then `SOFTWARE` unconditionally. -/
def get_supported_decoder_types (cfg : BuildConfig) : List VideoDecoderType :=
  let decoder_types : List VideoDecoderType := []
  let decoder_types :=
    if cfg.HAVE_NVIDIA_VIDEO_HARDWARE then push_back decoder_types VideoDecoderType.NVIDIA
    else decoder_types
  let decoder_types :=
    if cfg.HAVE_INTEL_VIDEO_HARDWARE then push_back decoder_types VideoDecoderType.INTEL
    else decoder_types
  let decoder_types := push_back decoder_types VideoDecoderType.SOFTWARE
  decoder_types

/-- The range-`for` loop of `has_decoder_type` (lines 48-52): return `true` at the first equal
element, `false` when the vector is exhausted. -/
def has_decoder_type_loop (type : VideoDecoderType) : List VideoDecoderType → Bool
  | [] => false
  | supported_type :: rest =>
      if type = supported_type then true else has_decoder_type_loop type rest

/-- The function `VideoDecoderFactory::has_decoder_type` (lines 44-53). -/
def has_decoder_type (cfg : BuildConfig) (type : VideoDecoderType) : Bool :=
  let types := get_supported_decoder_types cfg
  has_decoder_type_loop type types

/-- The struct `DeviceHandle` passed to `make_from_config`; the function reads its members `id` and
`type` only. The device type is kept as its numeric value. -/
structure DeviceHandle where
  type : Nat
  id : Int
  deriving DecidableEq, Repr

/-- The object a call of `make_from_config` allocates, with the constructor arguments it was
given. -/
inductive VideoDecoderInterface where
  | NVIDIAVideoDecoder (device_id : Int) (device_type : Nat) (cuda_context : Nat)
  | IntelVideoDecoder (device_id : Int) (device_type : Nat)
  | SoftwareVideoDecoder (device_id : Int) (device_type : Nat) (num_devices : Nat)
  deriving DecidableEq, Repr

/-- The vendor driver as `make_from_config` sees it: the `CUresult` of `cuInit(0)`, and for each
device id the `CUresult` of `cuDevicePrimaryCtxRetain` together with the context it writes.
`CUresult` value `0` is `CUDA_SUCCESS`. -/
structure Driver where
  cuInit : Nat → Nat
  cuDevicePrimaryCtxRetain : Int → Nat × Nat

/-- The driver entry points `make_from_config` calls. -/
inductive DriverCall where
  | cuInit
  | cuDevicePrimaryCtxRetain
  deriving DecidableEq, Repr

/-- The error taxonomy of the specification. -/
inductive ErrorCondition where
  | CorruptIndex
  | InvalidFrameIndex
  | UnsupportedDecoderType
  | DeviceInitializationFailed
  deriving DecidableEq, Repr

/-- Modelled from the spec: the macro `CUD_CHECK` of `hwang/util/cuda.h`, which is not among the
embedded sources. A driver call that does not return `CUDA_SUCCESS` is "a hard error
mid-construction" that "must propagate as a fatal `DeviceInitializationFailed` condition, not a
null result"; a successful call lets construction continue. -/
def CUD_CHECK (result : Nat) : Except ErrorCondition Unit :=
  if result = 0 then Except.ok () else Except.error ErrorCondition.DeviceInitializationFailed

/-- What a call of `make_from_config` does: the driver entry points it called, in order, and how
it ended: a fatal condition, or the returned pointer (`none` is `nullptr`). -/
structure Construction where
  calls : List DriverCall
  result : Except ErrorCondition (Option VideoDecoderInterface)

/-- The function `VideoDecoderFactory::make_from_config` (lines 55-98). `decoder` starts as
`nullptr`; each `case` assigns it only inside its `#ifdef`, whose `#else` branch is empty; the
`default` label does nothing. -/
def make_from_config (cfg : BuildConfig) (drv : Driver) (device_handle : DeviceHandle)
    (num_devices : Nat) (type : VideoDecoderType) : Construction :=
  let decoder : Option VideoDecoderInterface := none
  match type with
  | VideoDecoderType.NVIDIA =>
      if cfg.HAVE_NVIDIA_VIDEO_HARDWARE then
        match CUD_CHECK (drv.cuInit 0) with
        | Except.error c => ⟨[DriverCall.cuInit], Except.error c⟩
        | Except.ok () =>
            let retained := drv.cuDevicePrimaryCtxRetain device_handle.id
            match CUD_CHECK retained.1 with
            | Except.error c =>
                ⟨[DriverCall.cuInit, DriverCall.cuDevicePrimaryCtxRetain], Except.error c⟩
            | Except.ok () =>
                let cuda_context := retained.2
                ⟨[DriverCall.cuInit, DriverCall.cuDevicePrimaryCtxRetain],
                  Except.ok (some (VideoDecoderInterface.NVIDIAVideoDecoder device_handle.id
                    device_handle.type cuda_context))⟩
      else ⟨[], Except.ok decoder⟩
  | VideoDecoderType.INTEL =>
      if cfg.HAVE_INTEL_VIDEO_HARDWARE then
        ⟨[], Except.ok (some (VideoDecoderInterface.IntelVideoDecoder device_handle.id
          device_handle.type))⟩
      else ⟨[], Except.ok decoder⟩
  | VideoDecoderType.SOFTWARE =>
      ⟨[], Except.ok (some (VideoDecoderInterface.SoftwareVideoDecoder device_handle.id
        device_handle.type num_devices))⟩
  | VideoDecoderType.OTHER _ => ⟨[], Except.ok decoder⟩


/-! ## The interval slicer (`slice_into_video_intervals`, declared at lines 70-71) -/

/-- Modelled from the spec: step 2 of the slicing algorithm, whose code is not among the embedded
sources. The covering keyframe of `r` is "the largest keyframe index `≤ r`". When no keyframe is
`≤ r` (which the data model excludes, since `0` is always a keyframe) the value is `0`. -/
def covering_keyframe : List Nat → Nat → Nat
  | [], _ => 0
  | k :: ks, r =>
      if k ≤ r then max k (covering_keyframe ks r) else covering_keyframe ks r

/-- Modelled from the spec: step 1 of the slicing algorithm, "Deduplicate and sort `rows`
ascending". -/
def sort_unique (rows : List Nat) : List Nat :=
  (rows.dedup).insertionSort (fun a b => a ≤ b)

/-- Modelled from the spec: the merge test of step 3. The current run is anchored at `start`
and its last requested frame so far is `last`; the next requested frame `r` joins the run when it
shares the covering keyframe of `last`, or when its covering keyframe "lies within or immediately
after the current run's end". -/
def joins_run (ks : List Nat) (start last r : Nat) : Bool :=
  decide (covering_keyframe ks r = covering_keyframe ks last)
    || (decide (start ≤ covering_keyframe ks r) && decide (covering_keyframe ks r ≤ last + 1))

/-- Modelled from the spec: steps 3 and 4 of the slicing algorithm. Walks the sorted requested
frames after the first one of the current run `[start, last]`; a frame that joins the run extends
it, any other frame closes the run, which is emitted as the interval `(start, last)`, and opens a
new run at its own covering keyframe. -/
def group_runs (ks : List Nat) (start last : Nat) : List Nat → List (Nat × Nat)
  | [] => [(start, last)]
  | r :: rs =>
      if joins_run ks start last r then group_runs ks start r rs
      else (start, last) :: group_runs ks (covering_keyframe ks r) r rs

/-- Modelled from the spec: the intervals of a sorted, duplicate-free request; "empty `rows` →
empty intervals", otherwise the first run opens at the covering keyframe of the first frame. -/
def run_intervals (ks : List Nat) : List Nat → List (Nat × Nat)
  | [] => []
  | r :: rs => group_runs ks (covering_keyframe ks r) r rs

/-- Modelled from the spec: step 5 of the slicing algorithm, "exactly the requested frame numbers
that fall in `[k(first_in_run), last_in_run]`, in increasing order". -/
def frames_within (sorted : List Nat) (interval : Nat × Nat) : List Nat :=
  sorted.filter (fun r => decide (interval.1 ≤ r) && decide (r ≤ interval.2))

/-- Modelled from the spec: the function `slice_into_video_intervals(index, rows)`, of which
`video_index.h` has the declaration only. A frame number outside `[0, index.frames())` "fails with
an `InvalidFrameIndex` condition"; otherwise the five steps of section 4.2 are run. -/
def slice_into_video_intervals (index : VideoIndex) (rows : List Nat) :
    Except ErrorCondition VideoIntervals :=
  if ∀ r ∈ rows, r < index.frames then
    let sorted := sort_unique rows
    let intervals := run_intervals index.keyframe_indices sorted
    Except.ok
      { sample_index_intervals := intervals
        valid_frames := intervals.map (frames_within sorted) }
  else Except.error ErrorCondition.InvalidFrameIndex

/-- A run `[start, last]` is anchored in the request `L` when `start` is the covering keyframe of
a requested frame of the run. -/
def anchored (ks L : List Nat) (start last : Nat) : Prop :=
  ∃ g ∈ L, covering_keyframe ks g = start ∧ g ≤ last

/-- The intervals of a result paired with their index-aligned `valid_frames` entries. -/
def VideoIntervals.entries (out : VideoIntervals) : List ((Nat × Nat) × List Nat) :=
  out.sample_index_intervals.zip out.valid_frames

/-! ## The persisted index format (`serialize` / `deserialize`, declared at lines 34-36) -/

/-- Modelled from the spec: the "version/tag" that opens the persisted index format. -/
def FORMAT_VERSION : Nat := 1

/-- The `width` low-order bytes of `n`, least significant first. -/
def le_bytes : Nat → Nat → List Nat
  | 0, _ => []
  | width + 1, n => n % 256 :: le_bytes width (n / 256)

/-- The number a little-endian byte string denotes. -/
def from_le : List Nat → Nat
  | [] => 0
  | b :: bs => b + 256 * from_le bs

/-- Modelled from the spec: a `u64` field of the persisted format, as eight little-endian
bytes. -/
def encode_u64 (n : Nat) : List Nat := le_bytes 8 n

/-- Modelled from the spec: the elements of a numeric sequence, one `u64` after the other. -/
def encode_u64s : List Nat → List Nat
  | [] => []
  | x :: xs => encode_u64 x ++ encode_u64s xs

/-- Modelled from the spec: a "length-prefixed numeric sequence". -/
def encode_sequence (xs : List Nat) : List Nat :=
  encode_u64 xs.length ++ encode_u64s xs

/-- Modelled from the spec: the method `VideoIndex::serialize`, of which `video_index.h` has the
declaration only. It encodes, "in a fixed deterministic order, a version/tag, `num_frames`,
`num_non_ref_frames`, length-prefixed `metadata_bytes`, and the three length-prefixed numeric
sequences". -/
def VideoIndex.serialize (self : VideoIndex) : List Nat :=
  encode_u64 FORMAT_VERSION
    ++ encode_u64 self.num_frames_
    ++ encode_u64 self.num_non_ref_frames_
    ++ (encode_u64 self.metadata_bytes_.length ++ self.metadata_bytes_)
    ++ encode_sequence self.sample_offsets_
    ++ encode_sequence self.sample_sizes_
    ++ encode_sequence self.keyframe_indices_

/-- Modelled from the spec: reads one `u64` field; a buffer with fewer than eight bytes left is
"truncated". -/
def read_u64 (data : List Nat) : Except ErrorCondition (Nat × List Nat) :=
  if data.length < 8 then Except.error ErrorCondition.CorruptIndex
  else Except.ok (from_le (data.take 8), data.drop 8)

/-- Modelled from the spec: reads `count` raw bytes. -/
def read_bytes (count : Nat) (data : List Nat) : Except ErrorCondition (List Nat × List Nat) :=
  if data.length < count then Except.error ErrorCondition.CorruptIndex
  else Except.ok (data.take count, data.drop count)

/-- Modelled from the spec: reads `count` consecutive `u64` fields. -/
def read_u64s : Nat → List Nat → Except ErrorCondition (List Nat × List Nat)
  | 0, data => Except.ok ([], data)
  | count + 1, data =>
      match read_u64 data with
      | Except.error e => Except.error e
      | Except.ok (x, rest) =>
          match read_u64s count rest with
          | Except.error e => Except.error e
          | Except.ok (xs, rest) => Except.ok (x :: xs, rest)

/-- Modelled from the spec: reads a length-prefixed numeric sequence. -/
def read_sequence (data : List Nat) : Except ErrorCondition (List Nat × List Nat) :=
  match read_u64 data with
  | Except.error e => Except.error e
  | Except.ok (count, rest) => read_u64s count rest

/-- Modelled from the spec: the function `VideoIndex::deserialize`, of which `video_index.h` has
the declaration only. It "fails with a `CorruptIndex` condition if the byte buffer is truncated,
has an inconsistent declared length, or fails a format-version check"; bytes left over after the
last declared sequence are an inconsistent length. -/
def VideoIndex.deserialize (data : List Nat) : Except ErrorCondition VideoIndex :=
  match read_u64 data with
  | Except.error e => Except.error e
  | Except.ok (version, data) =>
  if version ≠ FORMAT_VERSION then Except.error ErrorCondition.CorruptIndex else
  match read_u64 data with
  | Except.error e => Except.error e
  | Except.ok (num_frames, data) =>
  match read_u64 data with
  | Except.error e => Except.error e
  | Except.ok (num_non_ref_frames, data) =>
  match read_u64 data with
  | Except.error e => Except.error e
  | Except.ok (metadata_length, data) =>
  match read_bytes metadata_length data with
  | Except.error e => Except.error e
  | Except.ok (metadata, data) =>
  match read_sequence data with
  | Except.error e => Except.error e
  | Except.ok (sample_offsets, data) =>
  match read_sequence data with
  | Except.error e => Except.error e
  | Except.ok (sample_sizes, data) =>
  match read_sequence data with
  | Except.error e => Except.error e
  | Except.ok (keyframe_indices, data) =>
  if data ≠ [] then Except.error ErrorCondition.CorruptIndex else
  Except.ok
    { num_frames_ := num_frames
      num_non_ref_frames_ := num_non_ref_frames
      metadata_bytes_ := metadata
      sample_offsets_ := sample_offsets
      sample_sizes_ := sample_sizes
      keyframe_indices_ := keyframe_indices }

/-- The values a `VideoIndex` can hold in the program: every `uint64_t` is below `2^64`, every
`uint8_t` below `2^8`, and every vector length fits a `uint64_t`. -/
def VideoIndex.representable (self : VideoIndex) : Prop :=
  self.num_frames_ < 2 ^ 64 ∧ self.num_non_ref_frames_ < 2 ^ 64
    ∧ self.metadata_bytes_.length < 2 ^ 64 ∧ (∀ b ∈ self.metadata_bytes_, b < 2 ^ 8)
    ∧ self.sample_offsets_.length < 2 ^ 64 ∧ (∀ v ∈ self.sample_offsets_, v < 2 ^ 64)
    ∧ self.sample_sizes_.length < 2 ^ 64 ∧ (∀ v ∈ self.sample_sizes_, v < 2 ^ 64)
    ∧ self.keyframe_indices_.length < 2 ^ 64 ∧ (∀ v ∈ self.keyframe_indices_, v < 2 ^ 64)

instance (self : VideoIndex) : Decidable self.representable := by
  unfold VideoIndex.representable; exact inferInstance

/-! ## Theorems: the decoder factory -/

theorem has_decoder_type_loop_iff (type : VideoDecoderType) (types : List VideoDecoderType) :
    has_decoder_type_loop type types = true ↔ type ∈ types := by
  induction types with
  | nil => simp [has_decoder_type_loop]
  | cons t ts ih =>
      by_cases h : type = t
      · simp [has_decoder_type_loop, h]
      · simp [has_decoder_type_loop, h, ih]

/-- C5: in every build configuration `get_supported_decoder_types()` is exactly
`[NVIDIA if the NVIDIA flag is on] ++ [INTEL if the INTEL flag is on] ++ [SOFTWARE]`; it has no
repeated variant, `SOFTWARE` is its last element, and with both flags off it is `[SOFTWARE]`. The
function takes nothing but the build configuration. -/
theorem get_supported_decoder_types_spec (cfg : BuildConfig) :
    get_supported_decoder_types cfg
        = (if cfg.HAVE_NVIDIA_VIDEO_HARDWARE then [VideoDecoderType.NVIDIA] else [])
          ++ (if cfg.HAVE_INTEL_VIDEO_HARDWARE then [VideoDecoderType.INTEL] else [])
          ++ [VideoDecoderType.SOFTWARE]
      ∧ (get_supported_decoder_types cfg).Nodup
      ∧ (get_supported_decoder_types cfg).getLast? = some VideoDecoderType.SOFTWARE
      ∧ get_supported_decoder_types ⟨false, false⟩ = [VideoDecoderType.SOFTWARE] := by
  obtain ⟨nv, intel⟩ := cfg
  cases nv <;> cases intel <;> simp [get_supported_decoder_types, push_back]

/-- C8: `has_decoder_type(t)` is true exactly when `t` is in `get_supported_decoder_types()`;
so `SOFTWARE` is always supported, `NVIDIA` and `INTEL` exactly when their flag is on. -/
theorem has_decoder_type_iff_mem (cfg : BuildConfig) (t : VideoDecoderType) :
    (has_decoder_type cfg t = true ↔ t ∈ get_supported_decoder_types cfg)
      ∧ has_decoder_type cfg VideoDecoderType.SOFTWARE = true
      ∧ has_decoder_type cfg VideoDecoderType.NVIDIA = cfg.HAVE_NVIDIA_VIDEO_HARDWARE
      ∧ has_decoder_type cfg VideoDecoderType.INTEL = cfg.HAVE_INTEL_VIDEO_HARDWARE := by
  refine ⟨by simp [has_decoder_type, has_decoder_type_loop_iff], ?_, ?_, ?_⟩ <;>
    obtain ⟨nv, intel⟩ := cfg <;> cases nv <;> cases intel <;>
    simp [has_decoder_type, has_decoder_type_loop, get_supported_decoder_types, push_back]

/-- C6: when the vendor driver calls succeed, `make_from_config(device_handle, num_devices, type)`
returns (no error is raised), and the returned pointer is null exactly when
`has_decoder_type(type)` is false; for `SOFTWARE` the result is a decoder in every build; with
only the software variant compiled in, `make_from_config(handle, 1, NVIDIA)` is null. -/
theorem make_from_config_null_iff (cfg : BuildConfig) (drv : Driver)
    (device_handle : DeviceHandle) (num_devices : Nat) (type : VideoDecoderType)
    (hinit : drv.cuInit 0 = 0)
    (hretain : (drv.cuDevicePrimaryCtxRetain device_handle.id).1 = 0) :
    (∃ decoder, (make_from_config cfg drv device_handle num_devices type).result
          = Except.ok decoder
        ∧ (decoder = none ↔ has_decoder_type cfg type = false))
      ∧ (∃ d, (make_from_config cfg drv device_handle num_devices
          VideoDecoderType.SOFTWARE).result = Except.ok (some d))
      ∧ (make_from_config ⟨false, false⟩ drv device_handle 1 VideoDecoderType.NVIDIA).result
          = Except.ok none := by
  obtain ⟨nv, intel⟩ := cfg
  refine ⟨?_, ⟨_, rfl⟩, rfl⟩
  cases type <;> cases nv <;> cases intel <;>
    simp [make_from_config, CUD_CHECK, hinit, hretain, has_decoder_type, has_decoder_type_loop,
      get_supported_decoder_types, push_back]

theorem make_from_config_null_iff_witness :
    (Driver.mk (fun _ => 0) (fun _ => (0, 7))).cuInit 0 = 0
      ∧ ((Driver.mk (fun _ => 0) (fun _ => (0, 7))).cuDevicePrimaryCtxRetain
          (DeviceHandle.mk 1 0).id).1 = 0
      ∧ ((∃ decoder, (make_from_config ⟨true, false⟩ (Driver.mk (fun _ => 0) (fun _ => (0, 7)))
              (DeviceHandle.mk 1 0) 1 VideoDecoderType.NVIDIA).result = Except.ok decoder
            ∧ (decoder = none ↔ has_decoder_type ⟨true, false⟩ VideoDecoderType.NVIDIA = false))
        ∧ (∃ d, (make_from_config ⟨true, false⟩ (Driver.mk (fun _ => 0) (fun _ => (0, 7)))
            (DeviceHandle.mk 1 0) 1 VideoDecoderType.SOFTWARE).result = Except.ok (some d))
        ∧ (make_from_config ⟨false, false⟩ (Driver.mk (fun _ => 0) (fun _ => (0, 7)))
            (DeviceHandle.mk 1 0) 1 VideoDecoderType.NVIDIA).result = Except.ok none) :=
  ⟨rfl, rfl, make_from_config_null_iff ⟨true, false⟩ (Driver.mk (fun _ => 0) (fun _ => (0, 7)))
    (DeviceHandle.mk 1 0) 1 VideoDecoderType.NVIDIA rfl rfl⟩

/-- C7: in a build with the NVIDIA variant compiled in, if `cuInit` or
`cuDevicePrimaryCtxRetain` fails, `make_from_config` for `NVIDIA` ends in the fatal
`DeviceInitializationFailed` condition (so it returns neither null nor a decoder), and it has
called the driver only up to the failing call, each entry point once: `cuInit` alone when
`cuInit` failed, `cuInit` then `cuDevicePrimaryCtxRetain` otherwise. For `INTEL`,
`make_from_config` makes no driver call at all. -/
theorem make_from_config_driver_failure (cfg : BuildConfig) (drv : Driver)
    (device_handle : DeviceHandle) (num_devices : Nat)
    (hnvidia : cfg.HAVE_NVIDIA_VIDEO_HARDWARE = true)
    (hfail : drv.cuInit 0 ≠ 0 ∨ (drv.cuDevicePrimaryCtxRetain device_handle.id).1 ≠ 0) :
    (make_from_config cfg drv device_handle num_devices VideoDecoderType.NVIDIA).result
        = Except.error ErrorCondition.DeviceInitializationFailed
      ∧ (make_from_config cfg drv device_handle num_devices VideoDecoderType.NVIDIA).calls
        = (if drv.cuInit 0 ≠ 0 then [DriverCall.cuInit]
            else [DriverCall.cuInit, DriverCall.cuDevicePrimaryCtxRetain])
      ∧ (make_from_config cfg drv device_handle num_devices VideoDecoderType.INTEL).calls
        = [] := by
  obtain ⟨nv, intel⟩ := cfg
  simp only at hnvidia
  subst hnvidia
  refine ⟨?_, ?_, ?_⟩
  · by_cases h0 : drv.cuInit 0 = 0
    · have h1 : (drv.cuDevicePrimaryCtxRetain device_handle.id).1 ≠ 0 := by
        rcases hfail with h | h
        · exact absurd h0 h
        · exact h
      simp [make_from_config, CUD_CHECK, h0, h1]
    · simp [make_from_config, CUD_CHECK, h0]
  · by_cases h0 : drv.cuInit 0 = 0
    · have h1 : (drv.cuDevicePrimaryCtxRetain device_handle.id).1 ≠ 0 := by
        rcases hfail with h | h
        · exact absurd h0 h
        · exact h
      simp [make_from_config, CUD_CHECK, h0, h1]
    · simp [make_from_config, CUD_CHECK, h0]
  · cases intel <;> simp [make_from_config]

theorem make_from_config_driver_failure_witness :
    (BuildConfig.mk true false).HAVE_NVIDIA_VIDEO_HARDWARE = true
      ∧ ((Driver.mk (fun _ => 0) (fun _ => (201, 0))).cuInit 0 ≠ 0
          ∨ ((Driver.mk (fun _ => 0) (fun _ => (201, 0))).cuDevicePrimaryCtxRetain
              (DeviceHandle.mk 1 0).id).1 ≠ 0)
      ∧ (make_from_config ⟨true, false⟩ (Driver.mk (fun _ => 0) (fun _ => (201, 0)))
            (DeviceHandle.mk 1 0) 1 VideoDecoderType.NVIDIA).result
          = Except.error ErrorCondition.DeviceInitializationFailed
      ∧ (make_from_config ⟨true, false⟩ (Driver.mk (fun _ => 0) (fun _ => (201, 0)))
            (DeviceHandle.mk 1 0) 1 VideoDecoderType.NVIDIA).calls
          = [DriverCall.cuInit, DriverCall.cuDevicePrimaryCtxRetain] :=
  have h := make_from_config_driver_failure ⟨true, false⟩
    (Driver.mk (fun _ => 0) (fun _ => (201, 0))) (DeviceHandle.mk 1 0) 1 rfl
    (Or.inr (by decide))
  ⟨rfl, Or.inr (by decide), h.1, h.2.1⟩

/-! ## Theorems: the interval slicer -/

theorem covering_keyframe_le (ks : List Nat) (r : Nat) : covering_keyframe ks r ≤ r := by
  induction ks with
  | nil => simp [covering_keyframe]
  | cons k ks ih =>
      simp only [covering_keyframe]
      split
      · exact max_le (by assumption) ih
      · exact ih

theorem le_covering_keyframe (ks : List Nat) (r k : Nat) (hk : k ∈ ks) (hkr : k ≤ r) :
    k ≤ covering_keyframe ks r := by
  induction ks with
  | nil => cases hk
  | cons a ks ih =>
      simp only [covering_keyframe]
      rcases List.mem_cons.1 hk with rfl | h
      · simp [hkr]
      · split
        · exact le_trans (ih h) (le_max_right _ _)
        · exact ih h

theorem covering_keyframe_zero_or_mem (ks : List Nat) (r : Nat) :
    covering_keyframe ks r = 0 ∨ covering_keyframe ks r ∈ ks := by
  induction ks with
  | nil => simp [covering_keyframe]
  | cons a ks ih =>
      simp only [covering_keyframe]
      split
      · rcases max_choice a (covering_keyframe ks r) with h | h
        · right; rw [h]; exact List.mem_cons_self _ _
        · rw [h]; rcases ih with h0 | hm
          · exact Or.inl h0
          · exact Or.inr (List.mem_cons_of_mem _ hm)
      · rcases ih with h0 | hm
        · exact Or.inl h0
        · exact Or.inr (List.mem_cons_of_mem _ hm)

theorem covering_keyframe_mono (ks : List Nat) {r r' : Nat} (h : r ≤ r') :
    covering_keyframe ks r ≤ covering_keyframe ks r' := by
  rcases covering_keyframe_zero_or_mem ks r with h0 | hm
  · rw [h0]; exact Nat.zero_le _
  · exact le_covering_keyframe ks r' _ hm (le_trans (covering_keyframe_le ks r) h)

/-- Under the run invariant (`start` is at most the covering keyframe of `last`) and for a next
frame after `last`, the merge test is `covering_keyframe ks r ≤ last + 1`. -/
theorem joins_run_iff (ks : List Nat) (start last r : Nat)
    (hs : start ≤ covering_keyframe ks last) (hr : last ≤ r) :
    joins_run ks start last r = true ↔ covering_keyframe ks r ≤ last + 1 := by
  have h1 := covering_keyframe_le ks last
  have h2 := covering_keyframe_mono ks hr
  simp only [joins_run, Bool.or_eq_true, Bool.and_eq_true, decide_eq_true_eq]
  constructor
  · rintro (h | ⟨_, h⟩) <;> omega
  · intro h; right; exact ⟨by omega, h⟩

theorem anchored_le (ks L : List Nat) (start last : Nat) (h : anchored ks L start last) :
    start ≤ covering_keyframe ks last := by
  obtain ⟨g, _, hg, hgl⟩ := h
  rw [← hg]; exact covering_keyframe_mono ks hgl

theorem group_runs_bounds (ks L : List Nat) (rs : List Nat) :
    ∀ start last, anchored ks L start last → last ∈ L → (∀ r ∈ rs, r ∈ L) →
      List.Sorted (fun a b => a < b) (last :: rs) →
      ∀ p ∈ group_runs ks start last rs,
        start ≤ p.1 ∧ last ≤ p.2 ∧ p.2 ∈ L ∧ anchored ks L p.1 p.2 := by
  induction rs with
  | nil =>
      intro start last ha hl _ _ p hp
      simp only [group_runs, List.mem_singleton] at hp
      subst hp
      exact ⟨le_refl _, le_refl _, hl, ha⟩
  | cons r rs ih =>
      intro start last ha hl hrs hsorted p hp
      have hlt : last < r := List.rel_of_sorted_cons hsorted r (List.mem_cons_self _ _)
      have hsorted' : List.Sorted (fun a b => a < b) (r :: rs) := List.Sorted.of_cons hsorted
      have hrL : r ∈ L := hrs r (List.mem_cons_self _ _)
      have hrs' : ∀ x ∈ rs, x ∈ L := fun x hx => hrs x (List.mem_cons_of_mem _ hx)
      simp only [group_runs] at hp
      split at hp
      · have ha' : anchored ks L start r := by
          obtain ⟨g, hg, hc, hgl⟩ := ha
          exact ⟨g, hg, hc, by omega⟩
        obtain ⟨h1, h2, h3, h4⟩ := ih start r ha' hrL hrs' hsorted' p hp
        exact ⟨h1, by omega, h3, h4⟩
      · rename_i hj
        rcases List.mem_cons.1 hp with rfl | hp
        · exact ⟨le_refl _, le_refl _, hl, ha⟩
        · have ha' : anchored ks L (covering_keyframe ks r) r := ⟨r, hrL, rfl, le_refl _⟩
          obtain ⟨h1, h2, h3, h4⟩ := ih _ r ha' hrL hrs' hsorted' p hp
          have hle := anchored_le ks L start last ha
          have hnj : ¬ covering_keyframe ks r ≤ last + 1 := fun h =>
            hj ((joins_run_iff ks start last r hle (le_of_lt hlt)).2 h)
          have := covering_keyframe_mono ks (le_of_lt hlt)
          exact ⟨by omega, by omega, h3, h4⟩

theorem group_runs_separated (ks L : List Nat) (rs : List Nat) :
    ∀ start last, anchored ks L start last → last ∈ L → (∀ r ∈ rs, r ∈ L) →
      List.Sorted (fun a b => a < b) (last :: rs) →
      List.Pairwise (fun p q : Nat × Nat => p.2 + 1 < q.1) (group_runs ks start last rs) := by
  induction rs with
  | nil =>
      intro start last _ _ _ _
      simp [group_runs]
  | cons r rs ih =>
      intro start last ha hl hrs hsorted
      have hlt : last < r := List.rel_of_sorted_cons hsorted r (List.mem_cons_self _ _)
      have hsorted' : List.Sorted (fun a b => a < b) (r :: rs) := List.Sorted.of_cons hsorted
      have hrL : r ∈ L := hrs r (List.mem_cons_self _ _)
      have hrs' : ∀ x ∈ rs, x ∈ L := fun x hx => hrs x (List.mem_cons_of_mem _ hx)
      simp only [group_runs]
      split
      · have ha' : anchored ks L start r := by
          obtain ⟨g, hg, hc, hgl⟩ := ha
          exact ⟨g, hg, hc, by omega⟩
        exact ih start r ha' hrL hrs' hsorted'
      · rename_i hj
        have ha' : anchored ks L (covering_keyframe ks r) r := ⟨r, hrL, rfl, le_refl _⟩
        have hle := anchored_le ks L start last ha
        have hnj : ¬ covering_keyframe ks r ≤ last + 1 := fun h =>
          hj ((joins_run_iff ks start last r hle (le_of_lt hlt)).2 h)
        refine List.pairwise_cons.2 ⟨?_, ih _ r ha' hrL hrs' hsorted'⟩
        intro q hq
        have := (group_runs_bounds ks L rs _ r ha' hrL hrs' hsorted' q hq).1
        show last + 1 < q.1
        omega

theorem group_runs_covers (ks L : List Nat) (rs : List Nat) :
    ∀ start last, anchored ks L start last → (∀ r ∈ rs, r ∈ L) →
      List.Sorted (fun a b => a < b) (last :: rs) →
      ∀ x, (start ≤ x ∧ x ≤ last) ∨ x ∈ rs →
        ∃ p ∈ group_runs ks start last rs, p.1 ≤ x ∧ x ≤ p.2 := by
  induction rs with
  | nil =>
      intro start last _ _ _ x hx
      rcases hx with hx | hx
      · exact ⟨(start, last), by simp [group_runs], hx⟩
      · cases hx
  | cons r rs ih =>
      intro start last ha hrs hsorted x hx
      have hlt : last < r := List.rel_of_sorted_cons hsorted r (List.mem_cons_self _ _)
      have hsorted' : List.Sorted (fun a b => a < b) (r :: rs) := List.Sorted.of_cons hsorted
      have hrL : r ∈ L := hrs r (List.mem_cons_self _ _)
      have hrs' : ∀ x ∈ rs, x ∈ L := fun x hx => hrs x (List.mem_cons_of_mem _ hx)
      have hle := anchored_le ks L start last ha
      have hcl := covering_keyframe_le ks last
      simp only [group_runs]
      split
      · have ha' : anchored ks L start r := by
          obtain ⟨g, hg, hc, hgl⟩ := ha
          exact ⟨g, hg, hc, by omega⟩
        apply ih start r ha' hrs' hsorted' x
        rcases hx with ⟨h1, h2⟩ | hx
        · exact Or.inl ⟨h1, by omega⟩
        · rcases List.mem_cons.1 hx with rfl | hx
          · exact Or.inl ⟨by omega, le_refl _⟩
          · exact Or.inr hx
      · rcases hx with hx | hx
        · exact ⟨(start, last), List.mem_cons_self _ _, hx⟩
        · have ha' : anchored ks L (covering_keyframe ks r) r := ⟨r, hrL, rfl, le_refl _⟩
          have hcr := covering_keyframe_le ks r
          have hx' : (covering_keyframe ks r ≤ x ∧ x ≤ r) ∨ x ∈ rs := by
            rcases List.mem_cons.1 hx with rfl | hx
            · exact Or.inl ⟨hcr, le_refl _⟩
            · exact Or.inr hx
          obtain ⟨p, hp, hpx⟩ := ih _ r ha' hrs' hsorted' x hx'
          exact ⟨p, List.mem_cons_of_mem _ hp, hpx⟩

theorem sort_unique_sorted (rows : List Nat) :
    List.Sorted (fun a b => a < b) (sort_unique rows) := by
  have h1 : List.Sorted (fun a b : Nat => a ≤ b) (sort_unique rows) :=
    List.sorted_insertionSort _ _
  have h2 : (sort_unique rows).Nodup :=
    (List.perm_insertionSort _ _).nodup_iff.2 (List.nodup_dedup rows)
  exact h1.lt_of_le h2

theorem mem_sort_unique (rows : List Nat) (r : Nat) : r ∈ sort_unique rows ↔ r ∈ rows := by
  unfold sort_unique
  rw [(List.perm_insertionSort _ _).mem_iff, List.mem_dedup]

/-- What the intervals of a sorted, duplicate-free request `L` satisfy: each is a non-empty range
ending at a requested frame and anchored at the covering keyframe of a requested frame inside it;
later intervals start more than one frame after earlier ones end; every requested frame is
inside one of them. -/
theorem run_intervals_spec (ks L : List Nat) (hL : List.Sorted (fun a b => a < b) L) :
    (∀ p ∈ run_intervals ks L, p.2 ∈ L ∧ anchored ks L p.1 p.2)
      ∧ List.Pairwise (fun p q : Nat × Nat => p.2 + 1 < q.1) (run_intervals ks L)
      ∧ (∀ x ∈ L, ∃ p ∈ run_intervals ks L, p.1 ≤ x ∧ x ≤ p.2) := by
  cases L with
  | nil => simp [run_intervals]
  | cons r rs =>
      have ha : anchored ks (r :: rs) (covering_keyframe ks r) r :=
        ⟨r, List.mem_cons_self _ _, rfl, le_refl _⟩
      have hr : r ∈ r :: rs := List.mem_cons_self _ _
      have hrs : ∀ x ∈ rs, x ∈ r :: rs := fun x hx => List.mem_cons_of_mem _ hx
      refine ⟨?_, ?_, ?_⟩
      · intro p hp
        obtain ⟨_, _, h3, h4⟩ := group_runs_bounds ks (r :: rs) rs _ r ha hr hrs hL p hp
        exact ⟨h3, h4⟩
      · exact group_runs_separated ks (r :: rs) rs _ r ha hr hrs hL
      · intro x hx
        apply group_runs_covers ks (r :: rs) rs _ r ha hrs hL x
        rcases List.mem_cons.1 hx with rfl | hx
        · exact Or.inl ⟨covering_keyframe_le ks _, le_refl _⟩
        · exact Or.inr hx

theorem mem_frames_within (L : List Nat) (p : Nat × Nat) (r : Nat) :
    r ∈ frames_within L p ↔ r ∈ L ∧ p.1 ≤ r ∧ r ≤ p.2 := by
  simp [frames_within]


theorem sorted_head_le (v : List Nat) (hv : List.Sorted (fun a b => a < b) v) (hne : v ≠ []) :
    ∀ x ∈ v, v.head hne ≤ x := by
  cases v with
  | nil => exact absurd rfl hne
  | cons a t =>
      intro x hx
      rcases List.mem_cons.1 hx with rfl | hx
      · exact le_refl _
      · exact le_of_lt (List.rel_of_sorted_cons hv x hx)

theorem sorted_le_getLast (v : List Nat) (hv : List.Sorted (fun a b => a < b) v) (hne : v ≠ []) :
    ∀ x ∈ v, x ≤ v.getLast hne := by
  induction v with
  | nil => exact absurd rfl hne
  | cons a t ih =>
      intro x hx
      cases t with
      | nil =>
          rcases List.mem_cons.1 hx with rfl | hx
          · simp
          · cases hx
      | cons b t' =>
          have hne' : b :: t' ≠ [] := List.cons_ne_nil _ _
          have hlast : (a :: b :: t').getLast hne = (b :: t').getLast hne' := by
            simp [List.getLast_cons]
          rw [hlast]
          have hmem : (b :: t').getLast hne' ∈ b :: t' := List.getLast_mem hne'
          rcases List.mem_cons.1 hx with rfl | hx
          · exact le_of_lt (List.rel_of_sorted_cons hv _ hmem)
          · exact ih (List.Sorted.of_cons hv) hne' x hx

theorem mem_zip_map_self {α β : Type} (f : α → β) (l : List α) :
    ∀ e ∈ l.zip (l.map f), e.1 ∈ l ∧ e.2 = f e.1 := by
  induction l with
  | nil => intro e he; simp at he
  | cons a t ih =>
      intro e he
      simp only [List.map_cons, List.zip_cons_cons, List.mem_cons] at he
      rcases he with rfl | he
      · exact ⟨List.mem_cons_self _ _, rfl⟩
      · exact ⟨List.mem_cons_of_mem _ (ih e he).1, (ih e he).2⟩

theorem separated_index_unique (ivs : List (Nat × Nat))
    (hsep : List.Pairwise (fun p q : Nat × Nat => p.2 + 1 < q.1) ivs)
    (i j : Nat) (p q : Nat × Nat) (hi : ivs[i]? = some p) (hj : ivs[j]? = some q) (r : Nat)
    (hp : p.1 ≤ r ∧ r ≤ p.2) (hq : q.1 ≤ r ∧ r ≤ q.2) : i = j := by
  obtain ⟨hil, hip⟩ := List.getElem?_eq_some.1 hi
  obtain ⟨hjl, hjq⟩ := List.getElem?_eq_some.1 hj
  have key := List.pairwise_iff_getElem.1 hsep
  rcases Nat.lt_trichotomy i j with h | h | h
  · have := key i j hil hjl h
    rw [hip, hjq] at this
    omega
  · exact h
  · have := key j i hjl hil h
    rw [hip, hjq] at this
    omega

theorem slice_into_video_intervals_ok (index : VideoIndex) (rows : List Nat)
    (hrange : ∀ r ∈ rows, r < index.frames) :
    slice_into_video_intervals index rows = Except.ok
      { sample_index_intervals := run_intervals index.keyframe_indices (sort_unique rows)
        valid_frames := (run_intervals index.keyframe_indices (sort_unique rows)).map
          (frames_within (sort_unique rows)) } := by
  simp only [slice_into_video_intervals, if_pos hrange]

/-- C1: for every index and every request whose frames are all in `[0, index.frames())` (whatever
the keyframes are, so in particular when they are strictly increasing and contain `0`),
`slice_into_video_intervals` returns a result with one `valid_frames` entry per interval; every
requested frame lies inside the range of some emitted interval, and is in the `valid_frames`
entry of exactly one interval. -/
theorem slice_covers_request (index : VideoIndex) (rows : List Nat)
    (hrange : ∀ r ∈ rows, r < index.frames) :
    ∃ out, slice_into_video_intervals index rows = Except.ok out
      ∧ out.valid_frames.length = out.sample_index_intervals.length
      ∧ (∀ r ∈ rows, ∃ p ∈ out.sample_index_intervals, p.1 ≤ r ∧ r ≤ p.2)
      ∧ (∀ r ∈ rows, ∃! i : Nat, ∃ v, out.valid_frames[i]? = some v ∧ r ∈ v) := by
  obtain ⟨_, hsep, hcov⟩ :=
    run_intervals_spec index.keyframe_indices (sort_unique rows) (sort_unique_sorted rows)
  refine ⟨_, slice_into_video_intervals_ok index rows hrange, by simp, ?_, ?_⟩
  · intro r hr
    exact hcov r ((mem_sort_unique rows r).2 hr)
  · intro r hr
    have hrL := (mem_sort_unique rows r).2 hr
    obtain ⟨p, hp, hpr⟩ := hcov r hrL
    obtain ⟨i, hi⟩ := List.mem_iff_getElem?.1 hp
    refine ⟨i, ⟨frames_within (sort_unique rows) p, by simp [hi],
      (mem_frames_within _ _ _).2 ⟨hrL, hpr⟩⟩, ?_⟩
    rintro j ⟨v, hv, hrv⟩
    simp only [List.getElem?_map, Option.map_eq_some'] at hv
    obtain ⟨q, hq, rfl⟩ := hv
    have hqr := ((mem_frames_within _ _ _).1 hrv).2
    exact separated_index_unique _ hsep j i q p hq hi r hqr hpr

theorem slice_covers_request_witness :
    ∃ out, slice_into_video_intervals (VideoIndex.ctor 30 [] [] [] [0, 10, 20]) [5, 22, 5]
        = Except.ok out
      ∧ out.valid_frames.length = out.sample_index_intervals.length
      ∧ (∀ r ∈ [5, 22, 5], ∃ p ∈ out.sample_index_intervals, p.1 ≤ r ∧ r ≤ p.2)
      ∧ (∀ r ∈ [5, 22, 5], ∃! i : Nat, ∃ v, out.valid_frames[i]? = some v ∧ r ∈ v) :=
  slice_covers_request (VideoIndex.ctor 30 [] [] [] [0, 10, 20]) [5, 22, 5] (by decide)

/-- C2: when `0` is a keyframe and the request is in range, every emitted interval
`(start, end)` with its index-aligned `valid_frames` entry `v` has `v` non-empty, `start` a
keyframe that is the largest keyframe `≤` the first element of `v`, and `end` the last element of
`v`. With keyframes `[0, 10, 20]`, 30 frames and `rows = [5]` the result is the single interval
`(0, 5)` with `valid_frames = [[5]]`. -/
theorem slice_intervals_anchored (index : VideoIndex) (rows : List Nat)
    (hzero : 0 ∈ index.keyframe_indices) (hrange : ∀ r ∈ rows, r < index.frames) :
    ∃ out, slice_into_video_intervals index rows = Except.ok out
      ∧ out.valid_frames.length = out.sample_index_intervals.length
      ∧ (∀ e ∈ out.entries, ∃ hne : e.2 ≠ [],
          e.1.1 ∈ index.keyframe_indices
            ∧ e.1.1 ≤ e.2.head hne
            ∧ (∀ k ∈ index.keyframe_indices, k ≤ e.2.head hne → k ≤ e.1.1)
            ∧ e.1.2 = e.2.getLast hne)
      ∧ (∀ metadata sample_offsets sample_sizes,
          slice_into_video_intervals
              (VideoIndex.ctor 30 metadata sample_offsets sample_sizes [0, 10, 20]) [5]
            = Except.ok ⟨[(0, 5)], [[5]]⟩) := by
  obtain ⟨hanch, _, _⟩ :=
    run_intervals_spec index.keyframe_indices (sort_unique rows) (sort_unique_sorted rows)
  refine ⟨_, slice_into_video_intervals_ok index rows hrange, by simp, ?_, ?_⟩
  · intro e he
    obtain ⟨hmem, hv⟩ := mem_zip_map_self (frames_within (sort_unique rows)) _ e he
    obtain ⟨hlast, g, hgL, hgc, hgl⟩ := hanch e.1 hmem
    have hcg := covering_keyframe_le index.keyframe_indices g
    have hsorted : List.Sorted (fun a b => a < b) e.2 := by
      rw [hv]; exact (sort_unique_sorted rows).filter _
    have hlast_mem : e.1.2 ∈ e.2 := by
      rw [hv]; exact (mem_frames_within _ _ _).2 ⟨hlast, by omega, le_refl _⟩
    have hg_mem : g ∈ e.2 := by
      rw [hv]; exact (mem_frames_within _ _ _).2 ⟨hgL, by omega, hgl⟩
    have hne : e.2 ≠ [] := List.ne_nil_of_mem hlast_mem
    have hhead : e.2.head hne ∈ frames_within (sort_unique rows) e.1 := by
      rw [← hv]; exact List.head_mem hne
    have hlastv : e.2.getLast hne ∈ frames_within (sort_unique rows) e.1 := by
      rw [← hv]; exact List.getLast_mem hne
    have hhb := ((mem_frames_within _ _ _).1 hhead).2
    have hlb := ((mem_frames_within _ _ _).1 hlastv).2
    have hhg := sorted_head_le e.2 hsorted hne g hg_mem
    refine ⟨hne, ?_, hhb.1, ?_, ?_⟩
    · rcases covering_keyframe_zero_or_mem index.keyframe_indices g with h0 | hm
      · rw [← hgc, h0]; exact hzero
      · rw [← hgc]; exact hm
    · intro k hk hkh
      have h1 := le_covering_keyframe index.keyframe_indices _ k hk hkh
      have h2 := covering_keyframe_mono index.keyframe_indices hhg
      omega
    · have := sorted_le_getLast e.2 hsorted hne _ hlast_mem
      omega
  · intro metadata sample_offsets sample_sizes
    rfl

theorem slice_intervals_anchored_witness :
    ∃ out, slice_into_video_intervals (VideoIndex.ctor 30 [] [] [] [0, 10, 20]) [22, 8, 5]
        = Except.ok out
      ∧ out.valid_frames.length = out.sample_index_intervals.length
      ∧ (∀ e ∈ out.entries, ∃ hne : e.2 ≠ [],
          e.1.1 ∈ [0, 10, 20]
            ∧ e.1.1 ≤ e.2.head hne
            ∧ (∀ k ∈ [0, 10, 20], k ≤ e.2.head hne → k ≤ e.1.1)
            ∧ e.1.2 = e.2.getLast hne) :=
  let h := slice_intervals_anchored (VideoIndex.ctor 30 [] [] [] [0, 10, 20]) [22, 8, 5]
    (by decide) (by decide)
  h.imp (fun _ hout => ⟨hout.1, hout.2.1, hout.2.2.1⟩)

/-- C3: for every in-range request, in any order and with or without duplicates, every emitted
interval has `start ≤ end`, consecutive intervals `(s1, e1)`, `(s2, e2)` satisfy
`s1 ≤ e1 < s2 ≤ e2`, and any earlier interval ends before any later one starts. With keyframes
`[0, 10, 20]` the request `[5, 4]` yields the one interval `(0, 5)`. -/
theorem slice_intervals_sorted_disjoint (index : VideoIndex) (rows : List Nat)
    (hrange : ∀ r ∈ rows, r < index.frames) :
    ∃ out, slice_into_video_intervals index rows = Except.ok out
      ∧ (∀ p ∈ out.sample_index_intervals, p.1 ≤ p.2)
      ∧ List.Chain' (fun p q : Nat × Nat => p.1 ≤ p.2 ∧ p.2 < q.1 ∧ q.1 ≤ q.2)
          out.sample_index_intervals
      ∧ List.Pairwise (fun p q : Nat × Nat => p.2 < q.1) out.sample_index_intervals
      ∧ (∀ metadata sample_offsets sample_sizes,
          slice_into_video_intervals
              (VideoIndex.ctor 30 metadata sample_offsets sample_sizes [0, 10, 20]) [5, 4]
            = Except.ok ⟨[(0, 5)], [[4, 5]]⟩) := by
  obtain ⟨hanch, hsep, _⟩ :=
    run_intervals_spec index.keyframe_indices (sort_unique rows) (sort_unique_sorted rows)
  have hle : ∀ p ∈ run_intervals index.keyframe_indices (sort_unique rows), p.1 ≤ p.2 := by
    intro p hp
    obtain ⟨_, g, _, hgc, hgl⟩ := hanch p hp
    have := covering_keyframe_le index.keyframe_indices g
    omega
  refine ⟨_, slice_into_video_intervals_ok index rows hrange, hle, ?_, ?_, ?_⟩
  · apply List.Pairwise.chain'
    refine List.Pairwise.imp_of_mem ?_ hsep
    intro p q hp hq hpq
    exact ⟨hle p hp, by omega, hle q hq⟩
  · exact hsep.imp (fun h => by omega)
  · intro metadata sample_offsets sample_sizes
    rfl

theorem slice_intervals_sorted_disjoint_witness :
    ∃ out, slice_into_video_intervals (VideoIndex.ctor 30 [] [] [] [0, 10, 20]) [25, 5, 4, 5]
        = Except.ok out
      ∧ (∀ p ∈ out.sample_index_intervals, p.1 ≤ p.2)
      ∧ List.Chain' (fun p q : Nat × Nat => p.1 ≤ p.2 ∧ p.2 < q.1 ∧ q.1 ≤ q.2)
          out.sample_index_intervals
      ∧ List.Pairwise (fun p q : Nat × Nat => p.2 < q.1) out.sample_index_intervals :=
  let h := slice_intervals_sorted_disjoint (VideoIndex.ctor 30 [] [] [] [0, 10, 20])
    [25, 5, 4, 5] (by decide)
  h.imp (fun _ hout => ⟨hout.1, hout.2.1, hout.2.2.1, hout.2.2.2.1⟩)

/-! ## Theorems: the persisted index format -/

theorem length_le_bytes (width n : Nat) : (le_bytes width n).length = width := by
  induction width generalizing n with
  | zero => rfl
  | succ w ih => simp [le_bytes, ih]

theorem from_le_le_bytes (width n : Nat) : from_le (le_bytes width n) = n % 256 ^ width := by
  induction width generalizing n with
  | zero => simp [le_bytes, from_le, Nat.mod_one]
  | succ w ih =>
      simp only [le_bytes, from_le, ih]
      rw [pow_succ', Nat.mod_mul]

theorem read_u64_encode_u64 (n : Nat) (hn : n < 2 ^ 64) (rest : List Nat) :
    read_u64 (encode_u64 n ++ rest) = Except.ok (n, rest) := by
  have hlen : (encode_u64 n).length = 8 := length_le_bytes 8 n
  have hval : from_le (encode_u64 n) = n := by
    unfold encode_u64
    rw [from_le_le_bytes]
    exact Nat.mod_eq_of_lt (by norm_num at hn ⊢; exact hn)
  unfold read_u64
  rw [if_neg (by rw [List.length_append, hlen]; omega), List.take_left' hlen,
    List.drop_left' hlen, hval]

theorem read_u64s_encode_u64s (xs : List Nat) (hxs : ∀ x ∈ xs, x < 2 ^ 64) (rest : List Nat) :
    read_u64s xs.length (encode_u64s xs ++ rest) = Except.ok (xs, rest) := by
  induction xs with
  | nil => rfl
  | cons x t ih =>
      have hx : x < 2 ^ 64 := hxs x (List.mem_cons_self _ _)
      have ht : ∀ y ∈ t, y < 2 ^ 64 := fun y hy => hxs y (List.mem_cons_of_mem _ hy)
      simp only [List.length_cons, encode_u64s, read_u64s, List.append_assoc,
        read_u64_encode_u64 x hx, ih ht]

theorem read_sequence_encode_sequence (xs : List Nat) (hlen : xs.length < 2 ^ 64)
    (hxs : ∀ x ∈ xs, x < 2 ^ 64) (rest : List Nat) :
    read_sequence (encode_sequence xs ++ rest) = Except.ok (xs, rest) := by
  simp only [read_sequence, encode_sequence, List.append_assoc,
    read_u64_encode_u64 xs.length hlen, read_u64s_encode_u64s xs hxs]

theorem read_bytes_append (bytes rest : List Nat) :
    read_bytes bytes.length (bytes ++ rest) = Except.ok (bytes, rest) := by
  unfold read_bytes
  rw [if_neg (by rw [List.length_append]; omega), List.take_left' rfl, List.drop_left' rfl]

theorem deserialize_serialize (x : VideoIndex) (h : x.representable) :
    VideoIndex.deserialize x.serialize = Except.ok x := by
  obtain ⟨h1, h2, h3, _, h5, h6, h7, h8, h9, h10⟩ := h
  have hv : FORMAT_VERSION < 2 ^ 64 := by decide
  have hnil : encode_sequence x.keyframe_indices_
      = encode_sequence x.keyframe_indices_ ++ [] := (List.append_nil _).symm
  unfold VideoIndex.serialize VideoIndex.deserialize
  rw [hnil]
  simp only [List.append_assoc, read_u64_encode_u64 _ hv, read_u64_encode_u64 _ h1,
    read_u64_encode_u64 _ h2, read_u64_encode_u64 _ h3, read_bytes_append,
    read_sequence_encode_sequence _ h5 h6, read_sequence_encode_sequence _ h7 h8,
    read_sequence_encode_sequence _ h9 h10, ne_eq, not_true_eq_false, if_false]

/-- C4: for every `VideoIndex` `x` whose fields are representable in their machine types,
`VideoIndex::deserialize(x.serialize())` succeeds and its result equals `x`, and so has the same
`frames()`, `num_non_ref_frames()`, `metadata_bytes()`, `sample_offsets()`, `sample_sizes()` and
`keyframe_indices()`. -/
theorem deserialize_serialize_roundtrip (x : VideoIndex) (h : x.representable) :
    ∃ y, VideoIndex.deserialize x.serialize = Except.ok y
      ∧ y.frames = x.frames
      ∧ y.num_non_ref_frames = x.num_non_ref_frames
      ∧ y.metadata_bytes = x.metadata_bytes
      ∧ y.sample_offsets = x.sample_offsets
      ∧ y.sample_sizes = x.sample_sizes
      ∧ y.keyframe_indices = x.keyframe_indices
      ∧ y = x :=
  ⟨x, deserialize_serialize x h, rfl, rfl, rfl, rfl, rfl, rfl, rfl⟩

theorem deserialize_serialize_roundtrip_witness :
    (VideoIndex.mk 3 1 [103, 66] [0, 40, 90] [40, 50, 7] [0, 2]).representable
      ∧ ∃ y, VideoIndex.deserialize (VideoIndex.mk 3 1 [103, 66] [0, 40, 90] [40, 50, 7]
            [0, 2]).serialize = Except.ok y
        ∧ y.frames = 3
        ∧ y.num_non_ref_frames = 1
        ∧ y.metadata_bytes = [103, 66]
        ∧ y.sample_offsets = [0, 40, 90]
        ∧ y.sample_sizes = [40, 50, 7]
        ∧ y.keyframe_indices = [0, 2]
        ∧ y = VideoIndex.mk 3 1 [103, 66] [0, 40, 90] [40, 50, 7] [0, 2] :=
  ⟨by decide, deserialize_serialize_roundtrip _ (by decide)⟩

/-! ## Theorems: the `VideoIndex` constructor and accessors -/

/-- C9 (counterexample): the constructor accepts a frame count of `1` with empty offset and size
vectors, and the value it builds violates the frame-count invariant. -/
theorem ctor_frame_count_invariant_fails :
    ¬ (VideoIndex.ctor 1 [] [] [] [0]).frame_count_invariant := by
  decide

/-- C9 (amended): a value built by the five-argument constructor satisfies the frame-count
invariant exactly when the constructor's arguments do: `num_frames` is the length of
`sample_offsets` and of `sample_sizes`. -/
theorem ctor_frame_count_invariant_iff (num_frames : Nat)
    (metadata sample_offsets sample_sizes keyframe_indices : List Nat) :
    (VideoIndex.ctor num_frames metadata sample_offsets sample_sizes
        keyframe_indices).frame_count_invariant
      ↔ num_frames = sample_offsets.length ∧ num_frames = sample_sizes.length :=
  Iff.rfl

/-- C10: for all arguments the five-argument constructor returns a value (it checks nothing)
whose accessors `frames()`, `metadata_bytes()`, `sample_offsets()`, `sample_sizes()` and
`keyframe_indices()` return the arguments unchanged and whose `num_non_ref_frames()` is `0`;
offsets that are not monotone, such as `[9, 4, 7]`, are stored as given. -/
theorem ctor_accessors (num_frames : Nat)
    (metadata sample_offsets sample_sizes keyframe_indices : List Nat) :
    (VideoIndex.ctor num_frames metadata sample_offsets sample_sizes keyframe_indices).frames
        = num_frames
      ∧ (VideoIndex.ctor num_frames metadata sample_offsets sample_sizes
          keyframe_indices).metadata_bytes = metadata
      ∧ (VideoIndex.ctor num_frames metadata sample_offsets sample_sizes
          keyframe_indices).sample_offsets = sample_offsets
      ∧ (VideoIndex.ctor num_frames metadata sample_offsets sample_sizes
          keyframe_indices).sample_sizes = sample_sizes
      ∧ (VideoIndex.ctor num_frames metadata sample_offsets sample_sizes
          keyframe_indices).keyframe_indices = keyframe_indices
      ∧ (VideoIndex.ctor num_frames metadata sample_offsets sample_sizes
          keyframe_indices).num_non_ref_frames = 0
      ∧ (VideoIndex.ctor 3 metadata [9, 4, 7] sample_sizes keyframe_indices).sample_offsets
          = [9, 4, 7] :=
  ⟨rfl, rfl, rfl, rfl, rfl, rfl, rfl⟩

end hwang
